import Mathlib

/-!
Verification of the `finalise` crate (`src/lib.rs`): a scope-guard library
with two wrapper types, `AutoFinalizer<T>` and `ScopedTerminator<T, F>`.

Shallow embedding conventions:
* Side effects of terminal actions are modeled as a trace of emitted events
  of a type `E`.  An effectful Rust closure `FnOnce()` is embedded as a
  function `Unit → List E`; a closure `FnOnce(T)` as `T → List E`.
* A Rust `&mut`-returning accessor (`deref_mut`) is embedded as a lens
  (`MutBorrow`): reading through the borrow and writing back through it.
* Rust's implicit end-of-scope destruction is embedded by explicit scope
  runners (`runAutoScope`, `runScopedScope`) which construct a guard, apply
  a list of in-place mutations through its `deref_mut` borrow, and then
  either let the guard drop or extract its contents, recording the timeline
  of construction, terminal-action events, and destruction.
-/

/-- `core::mem::ManuallyDrop<T>`: a transparent holder of one `T` whose sole
purpose in the source is to suppress the contained value's automatic
destructor.  Destruction is explicit in the embedding, so the holder is
plain data. -/
structure ManuallyDrop (T : Type) where
  value : T
deriving Repr, DecidableEq

namespace ManuallyDrop

/-- `ManuallyDrop::new`. -/
def new {T : Type} (value : T) : ManuallyDrop T := ⟨value⟩

/-- `ManuallyDrop::take(&mut slot)`: reads the contained value out of the
slot (the slot is logically emptied; the source never touches it again). -/
def take {T : Type} (slot : ManuallyDrop T) : T := slot.value

/-- `<ManuallyDrop<T> as Deref>::deref`. -/
def deref {T : Type} (slot : ManuallyDrop T) : T := slot.value

end ManuallyDrop

/-- The `Finalize` trait (`src/lib.rs` lines 6-8): `finalize(self)` consumes
the value and performs its side-effecting terminal action, embedded as the
trace of events the action emits. -/
class Finalize (E : Type) (T : Type) where
  finalize : T → List E

/-- The blanket impl `impl<T: FnOnce()> Finalize for T` (lines 10-14): a
nullary callable finalizes by invoking itself. -/
instance instFinalizeNullary (E : Type) : Finalize E (Unit → List E) where
  finalize c := c ()

/-- A mutable borrow of a `T` component inside an `S`, as produced by a
`deref_mut` implementation: how the caller reads through the borrow and how
a write through the borrow updates the owner. -/
structure MutBorrow (S T : Type) where
  get : S → T
  set : S → T → S

/-- `AutoFinalizer<T>` (lines 24-28): `#[repr(transparent)]` wrapper holding
its value in a destruction-suppressed `ManuallyDrop` slot.  (The Rust struct
carries the bound `T: Finalize`; in the embedding the bound is required only
by `drop`.) -/
structure AutoFinalizer (T : Type) where
  inner : ManuallyDrop T
deriving Repr, DecidableEq

namespace AutoFinalizer

/-- `AutoFinalizer::new` (lines 32-36). -/
def new {T : Type} (value : T) : AutoFinalizer T :=
  { inner := ManuallyDrop.new value }

/-- `AutoFinalizer::into_inner` (lines 39-44): wraps the guard itself in a
fresh `ManuallyDrop` (suppressing the guard's own `Drop`, so no finalize
action runs) and takes the contained value out. -/
def into_inner {T : Type} (item : AutoFinalizer T) : T :=
  let item := ManuallyDrop.new item
  ManuallyDrop.take item.value.inner

/-- `<AutoFinalizer<T> as Deref>::deref` (lines 47-53): forwards to the
slot's `deref`. -/
def deref {T : Type} (g : AutoFinalizer T) : T :=
  g.inner.deref

/-- `<AutoFinalizer<T> as DerefMut>::deref_mut` (lines 55-60): a mutable
borrow of the contained value, forwarded through the slot. -/
def deref_mut {T : Type} : MutBorrow (AutoFinalizer T) T where
  get g := g.inner.deref
  set _ v := { inner := ⟨v⟩ }

/-- `impl<T: Finalize> Drop for AutoFinalizer<T>` (lines 62-67): takes the
value out of the slot and invokes its finalize action; returns the events
that single invocation emits. -/
def drop (E : Type) {T : Type} [Finalize E T] (g : AutoFinalizer T) : List E :=
  Finalize.finalize (ManuallyDrop.take g.inner)

/-- The `derive(PartialEq, Eq)` on `AutoFinalizer` (line 25): field-wise
equality, which `ManuallyDrop` delegates to the contained `T`. -/
def beq {T : Type} (eqT : T → T → Bool) (a b : AutoFinalizer T) : Bool :=
  eqT a.inner.value b.inner.value

/-- The `derive(PartialOrd, Ord)` on `AutoFinalizer` (line 25): field-wise
comparison, which `ManuallyDrop` delegates to the contained `T`. -/
def cmp {T : Type} (cmpT : T → T → Ordering) (a b : AutoFinalizer T) : Ordering :=
  cmpT a.inner.value b.inner.value

/-- The `derive(Hash)` on `AutoFinalizer` (line 25): feeds the hasher with
the single field, which `ManuallyDrop` delegates to the contained `T`
(`hT` is the contained type's contribution to the hasher state). -/
def hashWith {T : Type} (hT : T → UInt64) (a : AutoFinalizer T) : UInt64 :=
  hT a.inner.value

/-- The `derive(Clone)` on `AutoFinalizer` (line 25): clones the field
(`ManuallyDrop` clones the contained value with `T`'s clone, `cloneT`),
yielding a fresh, independent, armed guard. -/
def clone {T : Type} (cloneT : T → T) (g : AutoFinalizer T) : AutoFinalizer T :=
  { inner := ⟨cloneT g.inner.value⟩ }

end AutoFinalizer

/-- The `Terminator<T>` trait (lines 75-77): `terminate(self, other: T)`
consumes the terminator together with a payload, emitting a trace. -/
class Terminator (E : Type) (T : Type) (F : Type) where
  terminate : F → T → List E

/-- The blanket impl `impl<T, F: FnOnce(T)> Terminator<T> for F`
(lines 79-84): a unary callable terminates by invoking itself with the
payload. -/
instance instTerminatorUnary (E T : Type) : Terminator E T (T → List E) where
  terminate f t := f t

/-- `struct TermPair<T, F>(T, F)` (line 87): the internal payload/terminator
composite (`fst` is the Rust field `.0`, `snd` is `.1`). -/
structure TermPair (T F : Type) where
  fst : T
  snd : F
deriving Repr, DecidableEq

/-- `impl<T, F: Terminator<T>> Finalize for TermPair<T, F>` (lines 89-94):
finalizing the pair runs `self.1.terminate(self.0)`. -/
instance instFinalizeTermPair (E T F : Type) [Terminator E T F] :
    Finalize E (TermPair T F) where
  finalize p := Terminator.terminate p.snd p.fst

/-- `ScopedTerminator<T, F>` (lines 96-99): owns one
`AutoFinalizer<TermPair<T, F>>`.  (The Rust struct carries the bound
`F: Terminator<T>`; in the embedding the bound is required only where the
terminal action is involved.) -/
structure ScopedTerminator (T F : Type) where
  inner : AutoFinalizer (TermPair T F)
deriving Repr, DecidableEq

namespace ScopedTerminator

/-- `ScopedTerminator::new` (lines 103-107). -/
def new {T F : Type} (value : T) (terminator : F) : ScopedTerminator T F :=
  { inner := AutoFinalizer.new (TermPair.mk value terminator) }

/-- `ScopedTerminator::into_pair` (lines 110-113): extracts the pair through
`AutoFinalizer::into_inner` (disarming the underlying guard) and returns
`(pair.0, pair.1)`. -/
def into_pair {T F : Type} (item : ScopedTerminator T F) : T × F :=
  let pair := AutoFinalizer.into_inner item.inner
  (pair.fst, pair.snd)

/-- `<ScopedTerminator<T, F> as Deref>::deref` (lines 116-122): a view of
`&self.inner.deref().0`, the payload component only. -/
def deref {T F : Type} (g : ScopedTerminator T F) : T :=
  (AutoFinalizer.deref g.inner).fst

/-- `<ScopedTerminator<T, F> as DerefMut>::deref_mut` (lines 124-129): a
mutable borrow of `&mut self.inner.deref_mut().0`, the payload component
only; a write through it updates the payload and leaves the terminator
untouched. -/
def deref_mut {T F : Type} : MutBorrow (ScopedTerminator T F) T where
  get g := (AutoFinalizer.deref_mut.get g.inner).fst
  set g v :=
    { inner := AutoFinalizer.deref_mut.set g.inner
        { AutoFinalizer.deref_mut.get g.inner with fst := v } }

/-- Destruction of a `ScopedTerminator`: the type has no `Drop` impl of its
own, so Rust drops its field, firing the underlying `AutoFinalizer`'s
destructor. -/
def drop (E : Type) {T F : Type} [Terminator E T F] (g : ScopedTerminator T F) :
    List E :=
  AutoFinalizer.drop E g.inner

/-- The `derive(Clone)` on `ScopedTerminator` (line 96): clones the field,
which clones the `TermPair` component-wise with the payload's and the
terminator's clones. -/
def clone {T F : Type} (cloneT : T → T) (cloneF : F → F)
    (g : ScopedTerminator T F) : ScopedTerminator T F :=
  { inner := AutoFinalizer.clone
      (fun p => TermPair.mk (cloneT p.fst) (cloneF p.snd)) g.inner }

end ScopedTerminator

/-! ## Scope runners: the embedding of Rust ownership and drop semantics -/

/-- One entry on the observable timeline of a guard's scope. -/
inductive ScopeEvent (E : Type)
  | constructed
  | action (e : E)
  | destroyed
deriving Repr, DecidableEq

/-- How control leaves the scope that owns a guard. -/
inductive ScopeExit
  | drop
  | extract
deriving Repr, DecidableEq

/-- Apply a list of in-place mutations, one after the other, each one
reading the current value through a mutable borrow and writing the mutated
value back through it. -/
def mutateThrough {S T : Type} (b : MutBorrow S T) (muts : List (T → T))
    (s : S) : S :=
  muts.foldl (fun s m => b.set s (m (b.get s))) s

/-- The net effect of a mutation list on the borrowed value. -/
def applyAll {T : Type} (muts : List (T → T)) (v : T) : T :=
  muts.foldl (fun a m => m a) v

/-- A complete scope owning an `AutoFinalizer`: construct it around `v`,
mutate the payload in place through `deref_mut`, then leave the scope either
by letting the guard drop or by `into_inner` extraction.  Returns the
timeline and the extracted value, if any. -/
def runAutoScope (E : Type) {T : Type} [Finalize E T] (v : T)
    (muts : List (T → T)) (exit : ScopeExit) :
    List (ScopeEvent E) × Option T :=
  let g := AutoFinalizer.new v
  let g := mutateThrough AutoFinalizer.deref_mut muts g
  match exit with
  | ScopeExit.drop =>
      (ScopeEvent.constructed ::
        ((AutoFinalizer.drop E g).map ScopeEvent.action ++
          [ScopeEvent.destroyed]), none)
  | ScopeExit.extract =>
      ([ScopeEvent.constructed, ScopeEvent.destroyed],
        some (AutoFinalizer.into_inner g))

/-- A complete scope owning a `ScopedTerminator`: construct it around
payload `v` and terminator `f`, mutate the payload in place through
`deref_mut`, then leave the scope either by letting the guard drop or by
`into_pair` extraction. -/
def runScopedScope (E : Type) {T F : Type} [Terminator E T F] (v : T) (f : F)
    (muts : List (T → T)) (exit : ScopeExit) :
    List (ScopeEvent E) × Option (T × F) :=
  let g := ScopedTerminator.new v f
  let g := mutateThrough ScopedTerminator.deref_mut muts g
  match exit with
  | ScopeExit.drop =>
      (ScopeEvent.constructed ::
        ((ScopedTerminator.drop E g).map ScopeEvent.action ++
          [ScopeEvent.destroyed]), none)
  | ScopeExit.extract =>
      ([ScopeEvent.constructed, ScopeEvent.destroyed],
        some (ScopedTerminator.into_pair g))

/-- Number of terminal-action events on a timeline. -/
def countActions {E : Type} : List (ScopeEvent E) → Nat
  | [] => 0
  | ScopeEvent.action _ :: rest => countActions rest + 1
  | _ :: rest => countActions rest

/-! ## Basic lemmas about the embedded operations -/

theorem into_inner_new {T : Type} (v : T) :
    AutoFinalizer.into_inner (AutoFinalizer.new v) = v := rfl

theorem drop_new (E : Type) {T : Type} [Finalize E T] (v : T) :
    AutoFinalizer.drop E (AutoFinalizer.new v) = Finalize.finalize v := rfl

theorem scoped_drop_new (E : Type) {T F : Type} [Terminator E T F] (v : T)
    (f : F) :
    ScopedTerminator.drop E (ScopedTerminator.new v f)
      = Terminator.terminate f v := rfl

theorem into_pair_new {T F : Type} (v : T) (f : F) :
    ScopedTerminator.into_pair (ScopedTerminator.new v f) = (v, f) := rfl

theorem mutateThrough_auto_new {T : Type} (muts : List (T → T)) (v : T) :
    mutateThrough AutoFinalizer.deref_mut muts (AutoFinalizer.new v)
      = AutoFinalizer.new (applyAll muts v) := by
  induction muts generalizing v with
  | nil => rfl
  | cons m rest ih => exact ih (m v)

theorem mutateThrough_scoped_new {T F : Type} (muts : List (T → T)) (v : T)
    (f : F) :
    mutateThrough ScopedTerminator.deref_mut muts (ScopedTerminator.new v f)
      = ScopedTerminator.new (applyAll muts v) f := by
  induction muts generalizing v with
  | nil => rfl
  | cons m rest ih => exact ih (m v)

theorem runAutoScope_drop_eq (E : Type) {T : Type} [Finalize E T] (v : T)
    (muts : List (T → T)) :
    runAutoScope E v muts ScopeExit.drop
      = (ScopeEvent.constructed ::
          ((Finalize.finalize (applyAll muts v)).map ScopeEvent.action ++
            [ScopeEvent.destroyed]), none) := by
  simp only [runAutoScope, mutateThrough_auto_new, drop_new]

theorem runAutoScope_extract_eq (E : Type) {T : Type} [Finalize E T] (v : T)
    (muts : List (T → T)) :
    runAutoScope E v muts ScopeExit.extract
      = ([ScopeEvent.constructed, ScopeEvent.destroyed],
          some (applyAll muts v)) := by
  simp only [runAutoScope, mutateThrough_auto_new, into_inner_new]

theorem runScopedScope_drop_eq (E : Type) {T F : Type} [Terminator E T F]
    (v : T) (f : F) (muts : List (T → T)) :
    runScopedScope E v f muts ScopeExit.drop
      = (ScopeEvent.constructed ::
          ((Terminator.terminate f (applyAll muts v)).map ScopeEvent.action ++
            [ScopeEvent.destroyed]), none) := by
  simp only [runScopedScope, mutateThrough_scoped_new, scoped_drop_new]

theorem runScopedScope_extract_eq (E : Type) {T F : Type} [Terminator E T F]
    (v : T) (f : F) (muts : List (T → T)) :
    runScopedScope E v f muts ScopeExit.extract
      = ([ScopeEvent.constructed, ScopeEvent.destroyed],
          some (applyAll muts v, f)) := by
  simp only [runScopedScope, mutateThrough_scoped_new, into_pair_new]

theorem countActions_append {E : Type} (xs ys : List (ScopeEvent E)) :
    countActions (xs ++ ys) = countActions xs + countActions ys := by
  induction xs with
  | nil => simp [countActions]
  | cons x rest ih =>
      cases x with
      | constructed => simp [countActions, ih]
      | action e => simp [countActions, ih]; omega
      | destroyed => simp [countActions, ih]

theorem countActions_map_action {E : Type} (es : List E) :
    countActions (es.map ScopeEvent.action) = es.length := by
  induction es with
  | nil => rfl
  | cons e rest ih => simp [countActions, ih]

/-! ## The claims -/

/-- Claim C1: every guard (either wrapper type) constructed and then
destroyed without an extraction call runs its terminal action exactly once
and only after construction: the scope timeline is the construction marker,
then the events of exactly one invocation of finalize (resp. terminate) on
the final payload, then destruction; for a recording finalizer the number
of action events is exactly one — never zero, never more. -/
theorem exactly_once_terminal_action :
    (∀ (E T : Type) [_inst : Finalize E T] (v : T) (muts : List (T → T)),
      runAutoScope E v muts ScopeExit.drop
        = (ScopeEvent.constructed ::
            ((Finalize.finalize (applyAll muts v)).map ScopeEvent.action ++
              [ScopeEvent.destroyed]), none))
    ∧ (∀ (E T F : Type) [_inst : Terminator E T F] (v : T) (f : F)
        (muts : List (T → T)),
      runScopedScope E v f muts ScopeExit.drop
        = (ScopeEvent.constructed ::
            ((Terminator.terminate f (applyAll muts v)).map ScopeEvent.action ++
              [ScopeEvent.destroyed]), none))
    ∧ countActions
        (runAutoScope Nat (fun _ : Unit => [0]) [] ScopeExit.drop).1 = 1 := by
  refine ⟨?_, ?_, rfl⟩
  · intro E T _inst v muts
    exact runAutoScope_drop_eq E v muts
  · intro E T F _inst v f muts
    exact runScopedScope_drop_eq E v f muts

/-- Claim C2: extraction disarms the terminal action: after
`into_inner` / `into_pair`, ending the scope emits no action events at all
for that guard instance, and the contents are handed back. -/
theorem extraction_disarms :
    (∀ (E T : Type) [_inst : Finalize E T] (v : T) (muts : List (T → T)),
      runAutoScope E v muts ScopeExit.extract
        = ([ScopeEvent.constructed, ScopeEvent.destroyed],
            some (applyAll muts v))
      ∧ countActions (runAutoScope E v muts ScopeExit.extract).1 = 0)
    ∧ (∀ (E T F : Type) [_inst : Terminator E T F] (v : T) (f : F)
        (muts : List (T → T)),
      runScopedScope E v f muts ScopeExit.extract
        = ([ScopeEvent.constructed, ScopeEvent.destroyed],
            some (applyAll muts v, f))
      ∧ countActions (runScopedScope E v f muts ScopeExit.extract).1 = 0) := by
  constructor
  · intro E T _inst v muts
    refine ⟨runAutoScope_extract_eq E v muts, ?_⟩
    rw [runAutoScope_extract_eq]
    rfl
  · intro E T F _inst v f muts
    refine ⟨runScopedScope_extract_eq E v f muts, ?_⟩
    rw [runScopedScope_extract_eq]
    rfl

/-- Claim C3: letting a `ScopedTerminator::new(v, f)` guard drop without
extraction invokes `f` with exactly the payload as last mutated, exactly
once; in particular for payload `42` and a recording `f`, the timeline
records exactly one call with argument `42`. -/
theorem terminator_receives_payload :
    (∀ (E T F : Type) [_inst : Terminator E T F] (v : T) (f : F)
        (muts : List (T → T)),
      (runScopedScope E v f muts ScopeExit.drop).1
        = ScopeEvent.constructed ::
            ((Terminator.terminate f (applyAll muts v)).map ScopeEvent.action ++
              [ScopeEvent.destroyed]))
    ∧ runScopedScope Nat (42 : Nat) (fun t : Nat => [t]) [] ScopeExit.drop
        = ([ScopeEvent.constructed, ScopeEvent.action 42,
            ScopeEvent.destroyed], none) := by
  constructor
  · intro E T F _inst v f muts
    rw [runScopedScope_drop_eq]
  · rfl

/-- Claim C4: round-trip value fidelity:
`into_inner(new(v)) = v` for every `v`, and running the whole
construct-then-extract scope emits no events at all (no finalize action
runs) beyond returning the original value. -/
theorem value_fidelity_on_extraction :
    (∀ (T : Type) (v : T),
      AutoFinalizer.into_inner (AutoFinalizer.new v) = v)
    ∧ (∀ (E T : Type) [_inst : Finalize E T] (v : T),
      runAutoScope E v [] ScopeExit.extract
        = ([ScopeEvent.constructed, ScopeEvent.destroyed], some v)) := by
  constructor
  · intro T v
    rfl
  · intro E T _inst v
    exact runAutoScope_extract_eq E v []

/-- Claim C5: round-trip pair fidelity: `into_pair(new(v, f)) = (v, f)`
unchanged, and invoking the returned terminator with the returned payload
afterward performs exactly the action `f` would have performed on `v` —
extraction does not consume the terminator's validity. -/
theorem pair_fidelity_on_extraction :
    (∀ (T F : Type) (v : T) (f : F),
      ScopedTerminator.into_pair (ScopedTerminator.new v f) = (v, f))
    ∧ (∀ (E T F : Type) [_inst : Terminator E T F] (v : T) (f : F),
      Terminator.terminate (E := E)
          (ScopedTerminator.into_pair (ScopedTerminator.new v f)).2
          (ScopedTerminator.into_pair (ScopedTerminator.new v f)).1
        = Terminator.terminate f v) := by
  constructor
  · intro T F v f
    rfl
  · intro E T F _inst v f
    rfl

/-- Claim C6: writing through a guard's mutable access and then reading
through its read access observes the mutation, and extracting afterward
(`into_inner` / `into_pair`) returns the mutated value, not the value
supplied at construction. -/
theorem transparent_access_reflects_mutation :
    (∀ (T : Type) (g : AutoFinalizer T) (w : T),
      AutoFinalizer.deref (AutoFinalizer.deref_mut.set g w) = w
      ∧ AutoFinalizer.into_inner (AutoFinalizer.deref_mut.set g w) = w)
    ∧ (∀ (T F : Type) (g : ScopedTerminator T F) (w : T),
      ScopedTerminator.deref (ScopedTerminator.deref_mut.set g w) = w
      ∧ (ScopedTerminator.into_pair (ScopedTerminator.deref_mut.set g w)).1 = w)
    ∧ (∀ (E T : Type) [_inst : Finalize E T] (v : T) (muts : List (T → T)),
      (runAutoScope E v muts ScopeExit.extract).2 = some (applyAll muts v)) := by
  refine ⟨?_, ?_, ?_⟩
  · intro T g w
    exact ⟨rfl, rfl⟩
  · intro T F g w
    exact ⟨rfl, rfl⟩
  · intro E T _inst v muts
    rw [runAutoScope_extract_eq]

/-- Claim C7: any nullary callable satisfies the Finalize capability by
invoking itself, and wrapping one directly in `AutoFinalizer::new` and
letting the guard drop invokes it exactly once. -/
theorem nullary_callable_finalizer :
    (∀ (E : Type) (c : Unit → List E), Finalize.finalize c = c ())
    ∧ (∀ (E : Type) (c : Unit → List E),
      runAutoScope E c [] ScopeExit.drop
        = (ScopeEvent.constructed ::
            ((c ()).map ScopeEvent.action ++ [ScopeEvent.destroyed]), none))
    ∧ runAutoScope Nat (fun _ : Unit => [7]) [] ScopeExit.drop
        = ([ScopeEvent.constructed, ScopeEvent.action 7,
            ScopeEvent.destroyed], none) := by
  refine ⟨fun E c => rfl, fun E c => runAutoScope_drop_eq E c [], rfl⟩

/-- Claim C8: transparent access on a `ScopedTerminator` targets the
payload component only: reads return exactly the payload, a write through
the mutable access updates exactly the payload, and the terminator
component is never exposed or changed through either path. -/
theorem transparent_access_payload_only :
    ∀ (T F : Type) (g : ScopedTerminator T F) (w : T),
      ScopedTerminator.deref g = g.inner.inner.value.fst
      ∧ ScopedTerminator.deref_mut.get g = g.inner.inner.value.fst
      ∧ (ScopedTerminator.deref_mut.set g w).inner.inner.value.fst = w
      ∧ (ScopedTerminator.deref_mut.set g w).inner.inner.value.snd
          = g.inner.inner.value.snd := by
  intro T F g w
  exact ⟨rfl, rfl, rfl, rfl⟩

/-- Claim C9: the derived equality, ordering and hashing on
`AutoFinalizer<T>` delegate structurally to the contained value: two
guards compare exactly as their payloads do, and a guard hashes exactly as
its payload does. -/
theorem derived_ops_delegate_to_payload :
    ∀ (T : Type) (eqT : T → T → Bool) (cT : T → T → Ordering)
      (hT : T → UInt64) (a b : T),
      AutoFinalizer.beq eqT (AutoFinalizer.new a) (AutoFinalizer.new b) = eqT a b
      ∧ AutoFinalizer.cmp cT (AutoFinalizer.new a) (AutoFinalizer.new b) = cT a b
      ∧ AutoFinalizer.hashWith hT (AutoFinalizer.new a) = hT a := by
  intro T eqT cT hT a b
  exact ⟨rfl, rfl, rfl⟩

/-- Claim C10: both wrappers derive `Clone`; cloning an armed guard yields
an independent armed guard holding a clone of the contents, so dropping the
original and the clone runs the terminal action once per instance — twice
in total for clones of the same original value. -/
theorem clone_runs_action_per_instance :
    (∀ (E T : Type) [_inst : Finalize E T] (cloneT : T → T)
        (g : AutoFinalizer T),
      (AutoFinalizer.clone cloneT g).inner.value = cloneT g.inner.value
      ∧ AutoFinalizer.drop E g ++
          AutoFinalizer.drop E (AutoFinalizer.clone cloneT g)
        = Finalize.finalize g.inner.value ++
            Finalize.finalize (cloneT g.inner.value))
    ∧ (∀ (T F : Type) (cloneT : T → T) (cloneF : F → F) (v : T) (f : F),
      ScopedTerminator.clone cloneT cloneF (ScopedTerminator.new v f)
        = ScopedTerminator.new (cloneT v) (cloneF f))
    ∧ ScopedTerminator.drop Nat
          (ScopedTerminator.new (42 : Nat) (fun t : Nat => [t]))
        ++ ScopedTerminator.drop Nat
            (ScopedTerminator.clone id id
              (ScopedTerminator.new (42 : Nat) (fun t : Nat => [t])))
        = [42, 42] := by
  refine ⟨?_, ?_, rfl⟩
  · intro E T _inst cloneT g
    exact ⟨rfl, rfl⟩
  · intro T F cloneT cloneF v f
    rfl
